import Mathlib

/-!
Verification of the mb-loader firmware bootloader host.

The definitions below are a shallow embedding of the JavaScript source:
`src/lib/crc16.js` (CRC-16 engine), `src/lib/intelhex.js` (Intel HEX parser
and sparse block store), `src/lib/BootloaderTarget.js` (per-space filters,
checksums and empty-block tests) and `src/index.js` (the bootload engine:
connect, import, send).

Modelling conventions:
* machine bytes and 16-bit CRC values are `Nat` with explicit masking;
* JavaScript `NaN` arising from `parseInt` of non-hex text is `Option.none`;
* a JS sparse array cell is an `Entry`: `hole` for an index never assigned,
  `undef` for a cell assigned `undefined`, `data b` for a byte buffer
  (JS `forEach` skips holes but visits `undef` cells, while
  `typeof x !== 'object'` treats holes and `undef` cells alike);
* fallible code returns `Except`.
-/

namespace MbLoader

/-! ### CRC-16 engine (src/lib/crc16.js) -/

/-- The generator polynomial `0xA001` from src/lib/crc16.js. -/
def CRC16_GEN_POLY : Nat := 0xA001

/-- One round of the table-building inner loop in src/lib/crc16.js:
state is the pair `(crc, c)`. -/
def crcTableRound (p : Nat × Nat) : Nat × Nat :=
  if (p.1 ^^^ p.2) &&& 0x0001 ≠ 0 then ((p.1 >>> 1) ^^^ CRC16_GEN_POLY, p.2 >>> 1)
  else (p.1 >>> 1, p.2 >>> 1)

/-- Entry `i` of the 256-entry lookup table `_CRCTable`:
eight rounds starting from `crc = 0`, `c = i`. -/
def crcTableEntry (i : Nat) : Nat :=
  (crcTableRound^[8] (0, i)).1

/-- The byte update from src/lib/crc16.js:
`(crc >> 8) ^ _CRCTable[(crc ^ (data & 0xFFFF)) & 0x00FF]`. -/
def CRC_update (crc data : Nat) : Nat :=
  (crc >>> 8) ^^^ crcTableEntry ((crc ^^^ (data &&& 0xFFFF)) &&& 0x00FF)

/-- Feeding a list of bytes through `CRC.update`, one at a time
(the `forEach(updateByte)` pattern of src/lib/BootloaderTarget.js). -/
def crcFeed (crc : Nat) (bytes : List Nat) : Nat :=
  bytes.foldl CRC_update crc

/-! ### Sparse JS arrays of blocks -/

/-- One cell of the sparse `blocks` array. -/
inductive Entry where
  | hole
  | undef
  | data (b : List Nat)
deriving DecidableEq, Repr

/-- Reading `blocks[i]`: out-of-range reads give `undefined`, which the
source code only ever inspects through `typeof`, so it behaves as a hole. -/
def storeGet (blocks : List Entry) (i : Nat) : Entry :=
  blocks.getD i .hole

/-- Reading `blocks[i]` at a possibly negative JS index. -/
def getEntry (blocks : List Entry) (i : Int) : Entry :=
  if 0 ≤ i then storeGet blocks i.toNat else .hole

/-- Assignment `blocks[i] = e` on a JS array: in-range cells are replaced;
assigning past the end extends the array, leaving holes in between. -/
def storeSet (blocks : List Entry) (i : Nat) (e : Entry) : List Entry :=
  if i < blocks.length then blocks.set i e
  else blocks ++ (List.replicate (i - blocks.length) .hole ++ [e])

/-! ### Empty-block tests (src/lib/BootloaderTarget.js) -/

/-- `isSimpleBlockEmpty`: non-objects are empty; otherwise every byte must
be `0xFF`. -/
def isSimpleBlockEmpty : Entry → Bool
  | .data b => b.all (· == 0xFF)
  | _ => true

/-- The stride loop of `isPic24BlockEmpty`: for `i = 0, 4, 8, ...` the bytes
`block[i]`, `block[i+1]`, `block[i+2]` must all be `0xFF`; a read past the
end gives `undefined`, which compares unequal to `0xFF`, so a trailing
partial stride of one or two bytes always fails. -/
def pic24EmptyGo : List Nat → Bool
  | [] => true
  | [_] => false
  | [_, _] => false
  | [x0, x1, x2] => (x0 == 0xFF) && (x1 == 0xFF) && (x2 == 0xFF)
  | x0 :: x1 :: x2 :: _ :: rest =>
    ((x0 == 0xFF) && (x1 == 0xFF) && (x2 == 0xFF)) && pic24EmptyGo rest

/-- `isPic24BlockEmpty`: non-objects are empty; otherwise every 4-byte
stride must have its first three bytes `0xFF` (the fourth is ignored). -/
def isPic24BlockEmpty : Entry → Bool
  | .data b => pic24EmptyGo b
  | _ => true

/-! ### Checksums (src/lib/BootloaderTarget.js)

The loops run `for (i = start; i < end; i += blockSize)` with
`blockIndex = Math.floor(i / blockSize)`.  The walk is defined for integer
bounds; a zero `blockSize` (which would not terminate in JS) returns the
accumulator unchanged. -/

/-- The walk of `computeSimpleChecksum`: an absent block feeds `blockSize`
copies of `0xFF`, a present block feeds every one of its bytes.  The `fuel`
argument only bounds the recursion; with `0 < blockSize` every step moves
`i` up by at least one, so starting from `(stop - i).toNat` the guard
`i < stop` always fails before the fuel runs out. -/
def simpleChecksumGo (stop : Int) (blockSize : Nat) (blocks : List Entry) :
    Nat → Int → Nat → Nat
  | 0, _, crc => crc
  | fuel + 1, i, crc =>
    if i < stop ∧ 0 < blockSize then
      match getEntry blocks (Int.fdiv i blockSize) with
      | .data b => simpleChecksumGo stop blockSize blocks fuel (i + blockSize)
          (crcFeed crc b)
      | _ => simpleChecksumGo stop blockSize blocks fuel (i + blockSize)
          (crcFeed crc (List.replicate blockSize 0xFF))
    else crc

/-- `computeSimpleChecksum(start, end, blockSize, blocks)`: CRC of the whole
memory range, filling `0xFF` for missing blocks; seed `0xFFFF`. -/
def computeSimpleChecksum (start stop : Int) (blockSize : Nat)
    (blocks : List Entry) : Nat :=
  simpleChecksumGo stop blockSize blocks (stop - start).toNat start 0xFFFF

/-- The walk of `computeSimpleChecksumNoFill`: only present, non-empty
blocks feed the CRC.  Fuel as in `simpleChecksumGo`. -/
def noFillChecksumGo (stop : Int) (blockSize : Nat) (blocks : List Entry) :
    Nat → Int → Nat → Nat
  | 0, _, crc => crc
  | fuel + 1, i, crc =>
    if i < stop ∧ 0 < blockSize then
      match getEntry blocks (Int.fdiv i blockSize) with
      | .data b =>
        if isSimpleBlockEmpty (.data b) then
          noFillChecksumGo stop blockSize blocks fuel (i + blockSize) crc
        else noFillChecksumGo stop blockSize blocks fuel (i + blockSize)
          (crcFeed crc b)
      | _ => noFillChecksumGo stop blockSize blocks fuel (i + blockSize) crc
    else crc

/-- `computeSimpleChecksumNoFill(start, end, blockSize, blocks)`:
CRC skipping missing or empty blocks; seed `0xFFFF`. -/
def computeSimpleChecksumNoFill (start stop : Int) (blockSize : Nat)
    (blocks : List Entry) : Nat :=
  noFillChecksumGo stop blockSize blocks (stop - start).toNat start 0xFFFF

/-- `computeHmiAppChecksum`: returns 0 unconditionally. -/
def computeHmiAppChecksum (_start _stop : Int) (_blockSize : Nat)
    (_blocks : List Entry) : Nat := 0

/-! ### Send filters (src/lib/BootloaderTarget.js)

Both filters compute `address = index * block.length / addressing +
addressOffset` as a JS number and then extract four bytes with
`(address >> 24) & 0xFF`, ..., `address & 0xFF`.  Each shift first converts
the number to a 32-bit integer, truncating any fraction toward zero; for
`|address| < 2^31` the four extracted bytes are exactly the big-endian
bytes of `address mod 2^32`. -/

/-- The block start address: truncation toward zero of the exact rational
`(index * blockLen + addressing * addressOffset) / addressing`. -/
def blockAddress (index blockLen addressing : Nat) (addressOffset : Int) : Int :=
  Int.tdiv ((index * blockLen : Nat) + addressing * addressOffset) addressing

/-- The four big-endian address bytes placed at the front of every DATA
payload. -/
def addressBytes (address : Int) : List Nat :=
  let n := (address % 4294967296).toNat
  [(n >>> 24) &&& 0xFF, (n >>> 16) &&& 0xFF, (n >>> 8) &&& 0xFF, n &&& 0xFF]

/-- `sendSimpleFilter`: 4 address bytes, then the block verbatim. -/
def sendSimpleFilter (index : Nat) (block : List Nat) (addressing : Nat)
    (addressOffset : Int) : List Nat :=
  addressBytes (blockAddress index block.length addressing addressOffset) ++ block

/-- The data loop of `sendHmiAppFilter`: `for (i = 0; i < len; i += 4)`
push `block.slice(i, i + 3)` (the first three bytes of each 4-byte stride;
a trailing partial stride is pushed whole, since `slice` clamps). -/
def hmiStrip : List Nat → List Nat
  | [] => []
  | [x0] => [x0]
  | [x0, x1] => [x0, x1]
  | [x0, x1, x2] => [x0, x1, x2]
  | x0 :: x1 :: x2 :: _ :: rest => x0 :: x1 :: x2 :: hmiStrip rest

/-- `sendHmiAppFilter`: 4 address bytes, then the block with every fourth
byte dropped. -/
def sendHmiAppFilter (index : Nat) (block : List Nat) (addressing : Nat)
    (addressOffset : Int) : List Nat :=
  addressBytes (blockAddress index block.length addressing addressOffset)
    ++ hmiStrip block

/-! ### Load filters (src/lib/BootloaderTarget.js) -/

/-- One element of `space.excludeBlocks`.  The source fields are `start`
and `end` (inclusive); `end` is a reserved word here, so they are named
`rstart` / `rstop`. -/
structure BlockRange where
  rstart : Nat
  rstop : Nat
  exclude : Bool
deriving DecidableEq, Repr

/-- `blocks[i] = undefined` inside the exclusion loop. -/
def setUndef (blocks : List Entry) (i : Nat) : List Entry :=
  storeSet blocks i Entry.undef

/-- The inner loop of `loadSimpleFilter` for one range:
`for (i = range.start; i <= range.end; i++) blocks[i] = undefined`. -/
def excludeOne (blocks : List Entry) (r : BlockRange) : List Entry :=
  if r.exclude then (List.range' r.rstart (r.rstop + 1 - r.rstart)).foldl setUndef blocks
  else blocks

/-- `loadSimpleFilter(blocks, space)` restricted to its only effect: when
`space.excludeBlocks` is a non-empty array, blank out every excluded block. -/
def loadSimpleFilter (blocks : List Entry) (excludeBlocks : List BlockRange) :
    List Entry :=
  if 0 < excludeBlocks.length then excludeBlocks.foldl excludeOne blocks
  else blocks

/-- Whether some range of the exclusion list drops block `i`. -/
def isExcluded (excl : List BlockRange) (i : Nat) : Bool :=
  excl.any (fun r => r.exclude && decide (r.rstart ≤ i) && decide (i ≤ r.rstop))

/-- `loadHmiAppFilter(blocks, space)`: does nothing. -/
def loadHmiAppFilter (blocks : List Entry) : List Entry := blocks

/-! ### The import phase (src/index.js, importFile)

The space object stores its `loadFilter`, `checksum`, `blockIsEmpty` and
`sendFilter` members as first-class functions; each can only be one of the
concrete functions defined in src/lib/BootloaderTarget.js, so they are
embedded as tags with a dispatch function each. -/

inductive ChecksumKind where
  | fill    -- computeSimpleChecksum
  | nofill  -- computeSimpleChecksumNoFill
  | zero    -- computeHmiAppChecksum
deriving DecidableEq, Repr

inductive EmptyKind where
  | simple  -- isSimpleBlockEmpty
  | pic24   -- isPic24BlockEmpty
deriving DecidableEq, Repr

inductive SendFilterKind where
  | simple  -- sendSimpleFilter
  | hmi     -- sendHmiAppFilter
deriving DecidableEq, Repr

inductive LoadFilterKind where
  | nofilter      -- space.loadFilter is not a function
  | hmiApp        -- loadHmiAppFilter
  | simpleFilter  -- loadSimpleFilter
deriving DecidableEq, Repr

def checksumOf : ChecksumKind → Int → Int → Nat → List Entry → Nat
  | .fill => computeSimpleChecksum
  | .nofill => computeSimpleChecksumNoFill
  | .zero => computeHmiAppChecksum

def blockIsEmptyOf : EmptyKind → Entry → Bool
  | .simple => isSimpleBlockEmpty
  | .pic24 => isPic24BlockEmpty

def sendFilterOf : SendFilterKind → Nat → List Nat → Nat → Int → List Nat
  | .simple => sendSimpleFilter
  | .hmi => sendHmiAppFilter

def applyLoadFilter : LoadFilterKind → List BlockRange → List Entry → List Entry
  | .nofilter, _, blocks => blocks
  | .hmiApp, _, blocks => loadHmiAppFilter blocks
  | .simpleFilter, excl, blocks => loadSimpleFilter blocks excl

/-- The members of a space object that `importFile` reads. -/
structure ImportSpace where
  hexBlock : Nat
  addressing : Nat
  dataOffset : Int
  skipEmptyBlocks : Bool
  loadFilter : LoadFilterKind
  excludeBlocks : List BlockRange
  checksum : ChecksumKind
  blockIsEmpty : EmptyKind
  sendFilter : SendFilterKind
deriving Repr

/-- `index.js:568`: `start = index * space.hexBlock / space.addressing +
space.dataOffset` and the matching `end`; the block is retained when
`start >= me.appStart && end <= me.appEnd`.  (Every space in the source has
`addressing ∣ hexBlock`, so the divisions are exact.) -/
def inSendRange (sp : ImportSpace) (appStart appEnd : Int) (idx : Nat) : Bool :=
  let bstart : Int := (idx * sp.hexBlock / sp.addressing : Nat) + sp.dataOffset
  let bend : Int :=
    ((idx + 1) * sp.hexBlock / sp.addressing : Nat) - sp.addressing + sp.dataOffset
  decide (appStart ≤ bstart) && decide (bend ≤ appEnd)

/-- `forEach` enumeration of a JS array: index/value pairs, holes skipped
by the loop body (`Entry.hole` cases below). -/
def enumFrom (i : Nat) : List Entry → List (Nat × Entry)
  | [] => []
  | x :: xs => (i, x) :: enumFrom (i + 1) xs

/-- The `blocks.forEach` loop of `importFile` that builds `flashBlocks`:
skip holes; for a visited cell inside the app range, when
`!skipEmptyBlocks || !blockIsEmpty(block)` apply the send filter and append.
A visited `undefined` cell that reaches the send filter crashes with a
`TypeError` (`block.length` on `undefined`), which rejects the import. -/
def sendLoopGo (sp : ImportSpace) (appStart appEnd : Int) :
    List (Nat × Entry) → Except String (List (List Nat))
  | [] => .ok []
  | (_, Entry.hole) :: rest => sendLoopGo sp appStart appEnd rest
  | (idx, Entry.undef) :: rest =>
    if inSendRange sp appStart appEnd idx then
      if !sp.skipEmptyBlocks then .error "TypeError: block is undefined"
      else sendLoopGo sp appStart appEnd rest
    else sendLoopGo sp appStart appEnd rest
  | (idx, Entry.data b) :: rest =>
    if inSendRange sp appStart appEnd idx then
      if !sp.skipEmptyBlocks || !blockIsEmptyOf sp.blockIsEmpty (.data b) then
        match sendLoopGo sp appStart appEnd rest with
        | .ok tail =>
          .ok (sendFilterOf sp.sendFilter idx b sp.addressing sp.dataOffset :: tail)
        | .error m => .error m
      else sendLoopGo sp appStart appEnd rest
    else sendLoopGo sp appStart appEnd rest

/-- The import phase of `importFile` after the HEX file has been parsed
into `blocks` (src/index.js:546-587): run the load filter, compute
`computedCrc = space.checksum(appStart - dataOffset, appEnd - dataOffset,
hexBlock, blocks)`, then run the send-filter pass.  Returns
`(computedCrc, flashBlocks)`. -/
def importPhase (sp : ImportSpace) (appStart appEnd : Int)
    (blocks : List Entry) : Nat × Except String (List (List Nat)) :=
  let filtered := applyLoadFilter sp.loadFilter sp.excludeBlocks blocks
  let crc := checksumOf sp.checksum (appStart - sp.dataOffset)
    (appEnd - sp.dataOffset) sp.hexBlock filtered
  (crc, sendLoopGo sp appStart appEnd (enumFrom 0 filtered))

/-! ### Intel HEX line parsing (src/lib/intelhex.js)

`hexToBytes` calls `parseInt(hex.substr(c, 2), 16)` on two-character (or,
for an odd-length string, one trailing one-character) chunks.  `parseInt`
returns `NaN` (modelled `none`) when no hex digit can be read; it also
skips leading whitespace, accepts a sign, parses the longest hex prefix,
and treats a leading `0x`/`0X` with radix 16 as a prefix to strip. -/

/-- The value of one hexadecimal digit character, if any. -/
def hexDigit (c : Char) : Option Nat :=
  if '0' ≤ c ∧ c ≤ '9' then some (c.toNat - '0'.toNat)
  else if 'a' ≤ c ∧ c ≤ 'f' then some (c.toNat - 'a'.toNat + 10)
  else if 'A' ≤ c ∧ c ≤ 'F' then some (c.toNat - 'A'.toNat + 10)
  else none

/-- `parseInt(s, 16)` for a two-character string `s`. -/
def jsParseIntPair (c1 c2 : Char) : Option Int :=
  if c1 = '0' ∧ (c2 = 'x' ∨ c2 = 'X') then none
  else
    match hexDigit c1 with
    | some d1 =>
      match hexDigit c2 with
      | some d2 => some (16 * d1 + d2)
      | none => some d1
    | none =>
      if c1 = '+' ∨ c1.isWhitespace then (hexDigit c2).map (fun d => (d : Int))
      else if c1 = '-' then (hexDigit c2).map (fun d => -(d : Int))
      else none

/-- `parseInt(s, 16)` for a one-character string `s`. -/
def jsParseIntOne (c : Char) : Option Int :=
  (hexDigit c).map (fun d => (d : Int))

/-- `hexToBytes`: decode successive two-character chunks. -/
def hexToBytes : List Char → List (Option Int)
  | [] => []
  | [c] => [jsParseIntOne c]
  | c1 :: c2 :: rest => jsParseIntPair c1 c2 :: hexToBytes rest

/-- A parsed HEX record as returned by `parseHexLine`; fields can be `NaN`
when the line contained undecodable chunks that still passed the checks. -/
structure HexRecord where
  count : Option Int
  address : Option Int
  rtype : Option Int
  rdata : List (Option Int)
deriving DecidableEq, Repr

/-- Errors thrown by `parseHexLine`, carrying `this.linesInFile`. -/
inductive HexErr where
  | invalidData (line : Nat)  -- 'Invalid data in HEX file line: n'
  | invalidLine (line : Nat)  -- 'Invalid HEX file line: n'
deriving DecidableEq, Repr

/-- One step of the checksum accumulation `sum = (sum + byte) & 0xFF`:
`NaN + anything` is `NaN`, and `NaN & 0xFF` is `0`. -/
def jsByteSumStep (sum : Int) (b : Option Int) : Int :=
  match b with
  | none => 0
  | some v => (sum + v) % 256

/-- `bytes[1] * 256 + bytes[2]` with `NaN` propagation. -/
def jsMul256Add (a b : Option Int) : Option Int :=
  match a, b with
  | some x, some y => some (x * 256 + y)
  | _, _ => none

/-- `parseHexLine(line)`: drop the first character (the `':'` start code is
never actually checked), hex-decode the rest, and validate `count` against
the data length and the running 8-bit sum against zero.
`data` is `bytes.slice(4, bytes.length - 1)`. -/
def parseHexLine (lineNo : Nat) (line : List Char) : Except HexErr HexRecord :=
  let bytes := hexToBytes (line.drop 1)
  if 4 < bytes.length then
    let count := bytes.getD 0 none
    let sum := bytes.foldl jsByteSumStep 0
    let rdata := (bytes.drop 4).take (bytes.length - 1 - 4)
    if count ≠ some (rdata.length : Int) ∨ sum ≠ 0 then .error (.invalidData lineNo)
    else
      .ok { count := count
            address := jsMul256Add (bytes.getD 1 none) (bytes.getD 2 none)
            rtype := bytes.getD 3 none
            rdata := rdata }
  else .error (.invalidLine lineNo)

/-! ### The block store built by the parser (src/lib/intelhex.js)

`blockUpdate` and `addData` only ever see records whose bytes decoded
cleanly in the files the loader accepts, so records are modelled here with
plain `Nat` bytes. -/

/-- `Array.prototype.splice(offset, bytes.length, ...bytes)` on a dense
byte array: replace `bytes.length` elements at `offset` by `bytes`
(clamped at the end of the array, where it appends). -/
def spliceReplace (cur : List Nat) (offset : Nat) (bytes : List Nat) : List Nat :=
  cur.take offset ++ (bytes ++ cur.drop (offset + bytes.length))

/-- The buffer `blockUpdate` writes into: the existing one if the cell
holds an object, otherwise a fresh `new Array(blockSize).fill(0xFF)`. -/
def curBlock (blockSize : Nat) (blocks : List Entry) (blockIndex : Nat) : List Nat :=
  match storeGet blocks blockIndex with
  | .data b => b
  | _ => List.replicate blockSize 0xFF

/-- `blockUpdate(blockIndex, offset, bytes)`: allocate a fresh
`0xFF`-filled buffer of `blockSize` when the cell does not hold an object,
then splice the bytes in at `offset`. -/
def blockUpdate (blockSize : Nat) (blocks : List Entry) (blockIndex offset : Nat)
    (bytes : List Nat) : List Entry :=
  storeSet blocks blockIndex
    (.data (spliceReplace (curBlock blockSize blocks blockIndex) offset bytes))

/-- `addData(record)`: write the record's bytes at
`effectiveAddress = extendedAddress + record.address`, splitting across two
consecutive blocks when they do not fit in the first one. -/
def addData (blockSize extendedAddress : Nat) (blocks : List Entry)
    (address : Nat) (bytes : List Nat) : List Entry :=
  let effectiveAddress := extendedAddress + address
  let block := effectiveAddress / blockSize
  let offset := effectiveAddress % blockSize
  let available := blockSize - offset
  if available < bytes.length then
    blockUpdate blockSize
      (blockUpdate blockSize blocks block offset (bytes.take available))
      (block + 1) 0 (bytes.drop available)
  else
    blockUpdate blockSize blocks block offset bytes

/-- A record as consumed by `processRecord` (well-formed byte data). -/
structure PRecord where
  address : Nat
  rtype : Nat
  rdata : List Nat
deriving DecidableEq, Repr

/-- The parser state threaded through `processRecord`. -/
structure HexState where
  extendedAddress : Nat
  blocks : List Entry
deriving Repr

/-- `processRecord(record)`: DATA goes to `addData`; EXT_LINEAR_ADDR sets
the latch to `(data[0] << 24) + (data[1] << 16)` (an out-of-range read is
`undefined`, which the shifts coerce to 0); types 2, 3, 5 and unknown
types throw. -/
def processRecord (blockSize : Nat) (st : HexState) (r : PRecord) :
    Except String HexState :=
  if r.rtype = 0 then
    .ok { st with blocks := addData blockSize st.extendedAddress st.blocks r.address r.rdata }
  else if r.rtype = 1 then .ok st
  else if r.rtype = 2 then .error "Unhandled HEX record 2"
  else if r.rtype = 3 then .error "Unhandled HEX record 3"
  else if r.rtype = 4 then
    .ok { st with extendedAddress :=
      ((r.rdata.getD 0 0) <<< 24) + ((r.rdata.getD 1 0) <<< 16) }
  else if r.rtype = 5 then .error "Unhandled HEX record 5"
  else .error "Unknown Record type"

/-- The `loadFile` line loop restricted to already-parsed records: a record
whose processing throws leaves the state unchanged (the error is collected
and later lines are still processed). -/
def runRecords (blockSize : Nat) (records : List PRecord) : HexState :=
  records.foldl
    (fun st r => match processRecord blockSize st r with
      | .ok st' => st'
      | .error _ => st)
    { extendedAddress := 0, blocks := [] }

/-! ### Connecting (src/index.js, connectToTarget) -/

/-- The session fields that `connectToTarget` fills in from the ENQUIRE
response. -/
structure ConnectInfo where
  blScalarVersion : Nat
  targetVersion : Nat × Nat
  numberOfSpaces : Nat
  maxBuffer : Nat
deriving DecidableEq, Repr

/-- The response handler of `connectToTarget` (src/index.js:215-274).
A response shorter than 4 bytes throws `Invalid Response to ENQ`; a major
version outside `[4, 3, 2]` throws `Unsupported bootloader version`.  The
compatibility check is short-circuited in the source
(src/index.js:248-249: `//let check = me.target.isCompatible( response );
let check = true;`), so nothing else can fail. -/
def connectToTarget (response : List Nat) : Except String ConnectInfo :=
  if 4 ≤ response.length then
    let vmaj := response.getD 1 0
    let vmin := response.getD 2 0
    if vmaj ≠ 4 ∧ vmaj ≠ 3 ∧ vmaj ≠ 2 then
      .error "Unsupported bootloader version"
    else
      .ok { blScalarVersion := vmaj * 256 + vmin
            targetVersion := (vmaj, vmin)
            numberOfSpaces := response.getD 3 0
            maxBuffer :=
              if 5 < response.length then response.getD 4 0 * 256 + response.getD 5 0
              else 0 }
  else .error "Invalid Response to ENQ"

/-- `DefaultBootloaderTarget.isCompatible(response)`
(src/lib/BootloaderTarget.js:315-328), which `connectToTarget` no longer
calls: `some msg` models returning an error string, `none` returning
`true`.  `codeAny` is `target.code === 'any'` and `spacesLength` is
`this.spaces.length`. -/
def isCompatible (codeAny : Bool) (productCode : Nat) (spacesLength : Nat)
    (response : List Nat) : Option String :=
  if ¬codeAny ∧ productCode ≠ response.getD 0 0 then
    some "Did not find the expected device"
  else if response.getD 3 0 < spacesLength then
    some "Found unsupported device"
  else none

/-! ### Sending one block (src/index.js, sendAppBlock) -/

/-- `BL_OP_ACK`. -/
def BL_OP_ACK : Nat := 0x00

/-- How `sendAppBlock`'s response handler can fail. -/
inductive SendError where
  | unexpectedResponse (b : Option Nat)  -- 'Unexpected response while writing data'
  | referenceError (msg : String)        -- an undefined variable was referenced
  | blockOutOfSequence                   -- 'Incorrect Block Acknowledgement'
deriving DecidableEq, Repr

/-- The response handler of `sendAppBlock` (src/index.js:481-514), given
the payload `block` that was sent and the device's `response`; returns the
updated `blocksCompleted`.  Array reads are `Option` so that an
out-of-range read is JS `undefined`.  When `blScalarVersion >= 0x0401` and
the echoed address bytes mismatch, the source executes
`log.error('BLOCK OUT OF SEQUENCE')` (src/index.js:501); no variable `log`
is in scope there (only `me.log` exists), so JS throws
`ReferenceError: log is not defined` before the
`throw new Error('Incorrect Block Acknowledgement')` on the next line can
run. -/
def sendAppBlockCheck (blScalarVersion : Nat) (block response : List Nat)
    (blocksCompleted : Nat) : Except SendError Nat :=
  if response.get? 0 ≠ some BL_OP_ACK then
    .error (.unexpectedResponse (response.get? 0))
  else if 0x0401 ≤ blScalarVersion then
    if block.get? 2 ≠ response.get? 3 ∨ block.get? 3 ≠ response.get? 4 then
      .error (.referenceError "log is not defined")
    else .ok (blocksCompleted + 1)
  else .ok (blocksCompleted + 1)

/-! ### The sequential send loop (src/index.js, sendBlocks)

`sendBlocks` runs `for (const [index, block] of me.flashBlocks.entries())
{ await me.sendAppBlock(index, block); }`: each DATA command is awaited to
completion before the next one is issued, and a rejection aborts the loop.
The loop is modelled as the trace of command events it generates;
`respOk idx` tells whether the transaction for payload `idx` completes
successfully. -/

/-- `forEach`/`entries()` enumeration of a list of payloads. -/
def enumPayloads (i : Nat) : List (List Nat) → List (Nat × List Nat)
  | [] => []
  | x :: xs => (i, x) :: enumPayloads (i + 1) xs

/-- A command event: a DATA command is issued, or the awaited transaction
for it completes (successfully or not). -/
inductive Ev where
  | issue (i : Nat)
  | complete (i : Nat) (ok : Bool)
deriving DecidableEq, Repr

/-- The event trace of the `sendBlocks` loop: issue, await completion,
continue on success, abort the loop on failure. -/
def sendBlocksTrace (respOk : Nat → Bool) : List (Nat × List Nat) → List Ev
  | [] => []
  | (idx, _) :: rest =>
    if respOk idx then
      Ev.issue idx :: Ev.complete idx true :: sendBlocksTrace respOk rest
    else [Ev.issue idx, Ev.complete idx false]

/-- The full trace for a `flashBlocks` list. -/
def sendBlocksEvents (respOk : Nat → Bool) (flashBlocks : List (List Nat)) :
    List Ev :=
  sendBlocksTrace respOk (enumPayloads 0 flashBlocks)

/-- Every issued command is immediately followed by its own completion
before anything else happens. -/
def Alternating : List Ev → Bool
  | [] => true
  | .issue i :: .complete j _ :: rest => (i == j) && Alternating rest
  | _ => false

/-- The indices of the DATA commands actually issued, in order. -/
def issueIndices (t : List Ev) : List Nat :=
  t.filterMap (fun e => match e with | .issue i => some i | _ => none)

/-! ### Specification-side definitions

These restate parts of the specification in order to compare them with the
embedded code; they are not translations of source functions. -/

/-- The byte stream the specification says the Fill checksum walks over:
step through `[start, stop)` in `blockSize`-sized steps, contributing
`blockSize` copies of `0xFF` for an absent block and the block's bytes for
a present one (same fuel convention as `simpleChecksumGo`). -/
def fillWalkBytesGo (stop : Int) (blockSize : Nat) (blocks : List Entry) :
    Nat → Int → List Nat
  | 0, _ => []
  | fuel + 1, i =>
    if i < stop ∧ 0 < blockSize then
      (match getEntry blocks (Int.fdiv i blockSize) with
       | .data b => b
       | _ => List.replicate blockSize 0xFF)
        ++ fillWalkBytesGo stop blockSize blocks fuel (i + blockSize)
    else []

/-- The whole byte stream of the specification's Fill walk. -/
def fillWalkBytes (start stop : Int) (blockSize : Nat) (blocks : List Entry) :
    List Nat :=
  fillWalkBytesGo stop blockSize blocks (stop - start).toNat start

/-- Observation function for the block store: the byte the device would
hold at address `a` (absent blocks and unwritten cells read as the erased
value `0xFF`). -/
def readByte (blockSize : Nat) (blocks : List Entry) (a : Nat) : Nat :=
  match storeGet blocks (a / blockSize) with
  | .data b => b.getD (a % blockSize) 0xFF
  | _ => 0xFF

/-- Every block present in the store has length exactly `blockSize`. -/
def StoreWF (blockSize : Nat) (blocks : List Entry) : Prop :=
  ∀ i b, storeGet blocks i = .data b → b.length = blockSize

/-! ## Lemmas about the sparse store -/

theorem storeGet_storeSet (l : List Entry) (i j : Nat) (e : Entry) :
    storeGet (storeSet l i e) j = if j = i then e else storeGet l j := by
  simp only [storeGet, storeSet, List.getD_eq_getElem?_getD]
  rcases eq_or_ne j i with rfl | hj
  · rw [if_pos rfl]
    by_cases hi : j < l.length
    · rw [if_pos hi, List.getElem?_set_self hi]; rfl
    · rw [if_neg hi, List.getElem?_append_right (by omega),
        List.getElem?_append_right (by simp)]
      simp
  · rw [if_neg hj]
    by_cases hi : i < l.length
    · rw [if_pos hi, List.getElem?_set_ne (Ne.symm hj)]
    · rw [if_neg hi]
      by_cases hjl : j < l.length
      · rw [List.getElem?_append_left hjl]
      · rw [List.getElem?_append_right (by omega),
          List.getElem?_eq_none (l := l) (by omega)]
        by_cases hji : j < i
        · have hlt : j - l.length < (List.replicate (i - l.length) Entry.hole).length := by
            simp only [List.length_replicate]; omega
          rw [List.getElem?_append_left hlt, List.getElem?_replicate,
            if_pos (by omega)]
          rfl
        · have hge : (List.replicate (i - l.length) Entry.hole).length ≤ j - l.length := by
            simp only [List.length_replicate]; omega
          rw [List.getElem?_append_right hge,
            List.getElem?_eq_none
              (by simp only [List.length_replicate, List.length_singleton]; omega)]

theorem getEntry_natCast (l : List Entry) (n : Nat) :
    getEntry l (n : Int) = storeGet l n := by
  simp [getEntry]

theorem getEntry_storeSet (l : List Entry) (i : Nat) (e : Entry) (k : Int) :
    getEntry (storeSet l i e) k = if k = (i : Int) then e else getEntry l k := by
  unfold getEntry
  by_cases hk : 0 ≤ k
  · simp only [hk, if_true, storeGet_storeSet]
    by_cases h : k = (i : Int)
    · simp [h]
    · rw [if_neg (by omega), if_neg h]
  · rw [if_neg hk, if_neg (by omega), if_neg hk]

theorem storeGet_foldl_setUndef (is : List Nat) (l : List Entry) (j : Nat) :
    storeGet (is.foldl setUndef l) j = if j ∈ is then Entry.undef else storeGet l j := by
  induction is generalizing l with
  | nil => simp
  | cons x xs ih =>
    simp only [List.foldl_cons, ih, setUndef, storeGet_storeSet, List.mem_cons]
    by_cases h1 : j ∈ xs <;> by_cases h2 : j = x <;> simp [h1, h2]

theorem storeGet_excludeOne (l : List Entry) (r : BlockRange) (j : Nat) :
    storeGet (excludeOne l r) j =
      if r.exclude = true ∧ r.rstart ≤ j ∧ j ≤ r.rstop then Entry.undef
      else storeGet l j := by
  unfold excludeOne
  by_cases hex : r.exclude = true
  · rw [if_pos hex, storeGet_foldl_setUndef]
    by_cases h : r.rstart ≤ j ∧ j ≤ r.rstop
    · rw [if_pos (by rw [List.mem_range'_1]; omega), if_pos ⟨hex, h⟩]
    · rw [if_neg (by rw [List.mem_range'_1]; omega), if_neg (by tauto)]
  · rw [if_neg hex, if_neg (by tauto)]

theorem storeGet_foldl_excludeOne (excl : List BlockRange) (l : List Entry) (j : Nat) :
    storeGet (excl.foldl excludeOne l) j =
      if isExcluded excl j then Entry.undef else storeGet l j := by
  induction excl generalizing l with
  | nil => simp [isExcluded]
  | cons r t ih =>
    rw [List.foldl_cons, ih, storeGet_excludeOne]
    have hcons : (isExcluded (r :: t) j = true) ↔
        ((r.exclude = true ∧ r.rstart ≤ j ∧ j ≤ r.rstop) ∨ isExcluded t j = true) := by
      simp [isExcluded, List.any_cons, and_assoc]
    by_cases h1 : isExcluded t j = true
    · rw [if_pos h1, if_pos (hcons.mpr (Or.inr h1))]
    · rw [if_neg h1]
      by_cases h2 : r.exclude = true ∧ r.rstart ≤ j ∧ j ≤ r.rstop
      · rw [if_pos h2, if_pos (hcons.mpr (Or.inl h2))]
      · rw [if_neg h2, if_neg (fun hc => (hcons.mp hc).elim h2 h1)]

theorem storeGet_loadSimpleFilter (l : List Entry) (excl : List BlockRange) (j : Nat) :
    storeGet (loadSimpleFilter l excl) j =
      if isExcluded excl j then Entry.undef else storeGet l j := by
  unfold loadSimpleFilter
  cases excl with
  | nil => simp [isExcluded]
  | cons r t => simpa using storeGet_foldl_excludeOne (r :: t) l j

/-! ## Lemmas about the checksums -/

theorem simpleChecksumGo_stop {stop : Int} {bs : Nat} {blocks : List Entry}
    {fuel : Nat} {i : Int} {crc : Nat} (h : ¬i < stop) :
    simpleChecksumGo stop bs blocks fuel i crc = crc := by
  cases fuel <;> simp [simpleChecksumGo, h]

theorem noFillChecksumGo_stop {stop : Int} {bs : Nat} {blocks : List Entry}
    {fuel : Nat} {i : Int} {crc : Nat} (h : ¬i < stop) :
    noFillChecksumGo stop bs blocks fuel i crc = crc := by
  cases fuel <;> simp [noFillChecksumGo, h]

theorem simpleChecksumGo_congr {blocks blocks' : List Entry}
    (h : ∀ k : Int, getEntry blocks k = getEntry blocks' k)
    (stop : Int) (bs : Nat) :
    ∀ (fuel : Nat) (i : Int) (crc : Nat),
      simpleChecksumGo stop bs blocks fuel i crc =
        simpleChecksumGo stop bs blocks' fuel i crc := by
  intro fuel
  induction fuel with
  | zero => intro i crc; rfl
  | succ n ih =>
    intro i crc
    simp only [simpleChecksumGo, h]
    by_cases hc : i < stop ∧ 0 < bs
    · rw [if_pos hc, if_pos hc]
      cases getEntry blocks' (Int.fdiv i bs) <;> exact ih _ _
    · rw [if_neg hc, if_neg hc]

theorem noFillChecksumGo_congr {blocks blocks' : List Entry}
    (h : ∀ k : Int, getEntry blocks k = getEntry blocks' k)
    (stop : Int) (bs : Nat) :
    ∀ (fuel : Nat) (i : Int) (crc : Nat),
      noFillChecksumGo stop bs blocks fuel i crc =
        noFillChecksumGo stop bs blocks' fuel i crc := by
  intro fuel
  induction fuel with
  | zero => intro i crc; rfl
  | succ n ih =>
    intro i crc
    simp only [noFillChecksumGo, h]
    by_cases hc : i < stop ∧ 0 < bs
    · rw [if_pos hc, if_pos hc]
      cases getEntry blocks' (Int.fdiv i bs) with
      | data b => by_cases hb : isSimpleBlockEmpty (.data b) <;> simp only [hb] <;> exact ih _ _
      | hole => exact ih _ _
      | undef => exact ih _ _
    · rw [if_neg hc, if_neg hc]

theorem checksumOf_congr (k : ChecksumKind) {blocks blocks' : List Entry}
    (h : ∀ j : Int, getEntry blocks j = getEntry blocks' j)
    (start stop : Int) (bs : Nat) :
    checksumOf k start stop bs blocks = checksumOf k start stop bs blocks' := by
  cases k with
  | fill => exact simpleChecksumGo_congr h stop bs _ _ _
  | nofill => exact noFillChecksumGo_congr h stop bs _ _ _
  | zero => rfl

theorem computeSimpleChecksum_single (x : Entry) (bs : Nat) (hbs : 0 < bs) :
    computeSimpleChecksum 0 bs bs [x] =
      match x with
      | .data b => crcFeed 0xFFFF b
      | _ => crcFeed 0xFFFF (List.replicate bs 0xFF) := by
  obtain ⟨n, rfl⟩ : ∃ n, bs = n + 1 := ⟨bs - 1, by omega⟩
  have hfuel : (((n + 1 : Nat) : Int) - 0).toNat = n + 1 := by omega
  unfold computeSimpleChecksum
  rw [hfuel]
  simp only [simpleChecksumGo]
  rw [if_pos (by constructor <;> omega)]
  rw [Int.zero_fdiv]
  have hget : getEntry [x] 0 = x := rfl
  rw [hget]
  cases x <;>
    exact simpleChecksumGo_stop (by push_cast; omega)

theorem computeSimpleChecksumNoFill_single_empty (b : List Nat) (bs : Nat)
    (hbs : 0 < bs) (hemp : isSimpleBlockEmpty (.data b) = true) :
    computeSimpleChecksumNoFill 0 bs bs [.data b] = 0xFFFF := by
  obtain ⟨n, rfl⟩ : ∃ n, bs = n + 1 := ⟨bs - 1, by omega⟩
  have hfuel : (((n + 1 : Nat) : Int) - 0).toNat = n + 1 := by omega
  unfold computeSimpleChecksumNoFill
  rw [hfuel]
  simp only [noFillChecksumGo]
  rw [if_pos (by constructor <;> omega)]
  rw [Int.zero_fdiv]
  have hget : getEntry [Entry.data b] 0 = .data b := rfl
  rw [hget]
  simp only [hemp, if_true]
  exact noFillChecksumGo_stop (by push_cast; omega)

theorem crcFeed_of_all_ff {b : List Nat} (h : isSimpleBlockEmpty (.data b) = true)
    (crc : Nat) :
    crcFeed crc b = crcFeed crc (List.replicate b.length 0xFF) := by
  have hb : b = List.replicate b.length 0xFF := by
    rw [List.eq_replicate_iff]
    refine ⟨rfl, fun x hx => ?_⟩
    simp only [isSimpleBlockEmpty, List.all_eq_true] at h
    simpa using h x hx
  conv_lhs => rw [hb]

theorem simpleChecksumGo_eq_feed (stop : Int) (bs : Nat) (blocks : List Entry) :
    ∀ (fuel : Nat) (i : Int) (crc : Nat),
      simpleChecksumGo stop bs blocks fuel i crc =
        crcFeed crc (fillWalkBytesGo stop bs blocks fuel i) := by
  intro fuel
  induction fuel with
  | zero => intro i crc; rfl
  | succ n ih =>
    intro i crc
    simp only [simpleChecksumGo, fillWalkBytesGo]
    by_cases hc : i < stop ∧ 0 < bs
    · rw [if_pos hc, if_pos hc]
      cases getEntry blocks (Int.fdiv i bs) <;>
        simp only [crcFeed, List.foldl_append] <;> exact ih _ _
    · rw [if_neg hc, if_neg hc]; rfl

theorem simpleChecksumGo_set_ff {blocks : List Entry} {idx : Nat}
    (hhole : storeGet blocks idx = .hole) (stop : Int) (bs : Nat) :
    ∀ (fuel : Nat) (i : Int) (crc : Nat),
      simpleChecksumGo stop bs
          (storeSet blocks idx (.data (List.replicate bs 0xFF))) fuel i crc =
        simpleChecksumGo stop bs blocks fuel i crc := by
  intro fuel
  induction fuel with
  | zero => intro i crc; rfl
  | succ n ih =>
    intro i crc
    simp only [simpleChecksumGo, getEntry_storeSet]
    by_cases hc : i < stop ∧ 0 < bs
    · rw [if_pos hc, if_pos hc]
      by_cases hk : Int.fdiv i bs = (idx : Int)
      · rw [if_pos hk, hk]
        rw [getEntry_natCast, hhole]
        exact ih _ _
      · rw [if_neg hk]
        cases getEntry blocks (Int.fdiv i bs) <;> exact ih _ _
    · rw [if_neg hc, if_neg hc]

/-! ## Claim C4 -/

/-- C4 (amended): for the `block_is_empty`/`checksum` pairings the code
actually instantiates, emptiness implies the CRC criterion: with the
simple test and the Fill checksum, an empty block gives the same CRC over
a range containing only that block as the absent (device `0xFF`-filled)
range; with the simple test and the NoFill checksum, an empty block leaves
the CRC at its seed `0xFFFF`; with the PIC24 test and the constant-zero
checksum the equality is trivial.  (The converse directions of the claimed
`iff` do not hold; see the counterexample.) -/
theorem blockIsEmpty_checksum_agreement (b : List Nat) :
    (isSimpleBlockEmpty (.data b) = true →
      computeSimpleChecksum 0 b.length b.length [.data b] =
        computeSimpleChecksum 0 b.length b.length [.hole])
    ∧ (isSimpleBlockEmpty (.data b) = true →
      computeSimpleChecksumNoFill 0 b.length b.length [.data b] = 0xFFFF)
    ∧ (isPic24BlockEmpty (.data b) = true →
      computeHmiAppChecksum 0 b.length b.length [.data b] =
        computeHmiAppChecksum 0 b.length b.length [.hole]) := by
  refine ⟨fun h => ?_, fun h => ?_, fun _ => rfl⟩
  · rcases Nat.eq_zero_or_pos b.length with h0 | hpos
    · simp only [h0]
      rfl
    · rw [computeSimpleChecksum_single _ _ hpos,
        computeSimpleChecksum_single _ _ hpos]
      exact crcFeed_of_all_ff h 0xFFFF
  · rcases Nat.eq_zero_or_pos b.length with h0 | hpos
    · simp only [h0]
      rfl
    · exact computeSimpleChecksumNoFill_single_empty b _ hpos h

/-- C4 counterexample: the claimed equivalence is an `iff` over every
pairing of a `block_is_empty` variant with a `checksum` variant, but the
PIC24 emptiness test paired with the Fill checksum already breaks the
forward direction: `[0xFF, 0xFF, 0xFF, 0x00]` is PIC24-empty (the fourth
byte of the stride is ignored), yet its Fill CRC over a range containing
only this block differs from the CRC of the same range filled with
`0xFF`. -/
theorem blockIsEmpty_checksum_agreement_cex :
    isPic24BlockEmpty (.data [0xFF, 0xFF, 0xFF, 0x00]) = true ∧
    computeSimpleChecksum 0 4 4 [Entry.data [0xFF, 0xFF, 0xFF, 0x00]] ≠
      computeSimpleChecksum 0 4 4 [Entry.hole] := by
  decide

/-- Witness for `blockIsEmpty_checksum_agreement` at the all-`0xFF` block
`[0xFF, 0xFF]`. -/
theorem blockIsEmpty_checksum_agreement_witness :
    computeSimpleChecksum 0 2 2 [Entry.data [0xFF, 0xFF]] =
      computeSimpleChecksum 0 2 2 [Entry.hole] ∧
    computeSimpleChecksumNoFill 0 2 2 [Entry.data [0xFF, 0xFF]] = 0xFFFF :=
  ⟨(blockIsEmpty_checksum_agreement [0xFF, 0xFF]).1 (by decide),
   (blockIsEmpty_checksum_agreement [0xFF, 0xFF]).2.1 (by decide)⟩

/-! ## Claim C6 -/

/-- C6: the Fill checksum equals the CRC-16 (seed `0xFFFF`) of the byte
stream obtained by walking `[start, stop)` in `hex_block`-sized steps and
feeding `0xFF` `hex_block` times for an absent block and every byte of a
present block; and an absent block yields the same Fill checksum as a
present all-`0xFF` block stored in its place. -/
theorem computeSimpleChecksum_spec (start stop : Int) (blockSize : Nat)
    (blocks : List Entry) :
    computeSimpleChecksum start stop blockSize blocks =
      crcFeed 0xFFFF (fillWalkBytes start stop blockSize blocks)
    ∧ ∀ idx : Nat, storeGet blocks idx = .hole →
        computeSimpleChecksum start stop blockSize
          (storeSet blocks idx (.data (List.replicate blockSize 0xFF))) =
        computeSimpleChecksum start stop blockSize blocks := by
  constructor
  · exact simpleChecksumGo_eq_feed stop blockSize blocks _ start 0xFFFF
  · intro idx hhole
    exact simpleChecksumGo_set_ff hhole stop blockSize _ start 0xFFFF

/-- Witness for `computeSimpleChecksum_spec`: a two-block store whose
second block is absent, with a 64-byte block size. -/
theorem computeSimpleChecksum_spec_witness :
    computeSimpleChecksum 0 128 64
        (storeSet [Entry.data (List.replicate 64 0), Entry.hole] 1
          (Entry.data (List.replicate 64 0xFF))) =
      computeSimpleChecksum 0 128 64 [Entry.data (List.replicate 64 0), Entry.hole] :=
  (computeSimpleChecksum_spec 0 128 64
    [Entry.data (List.replicate 64 0), Entry.hole]).2 1 (by decide)

/-! ## Lemmas about the import send loop -/

theorem sendLoopGo_ok_mem (sp : ImportSpace) (appStart appEnd : Int) :
    ∀ (L : List (Nat × Entry)) (fb : List (List Nat)),
      sendLoopGo sp appStart appEnd L = .ok fb →
      ∀ p ∈ fb, ∃ idx b, (idx, Entry.data b) ∈ L ∧
        p = sendFilterOf sp.sendFilter idx b sp.addressing sp.dataOffset := by
  intro L
  induction L with
  | nil =>
    intro fb h p hp
    simp only [sendLoopGo] at h
    cases h
    simp at hp
  | cons hd rest ih =>
    obtain ⟨idx, e⟩ := hd
    cases e with
    | hole =>
      intro fb h p hp
      simp only [sendLoopGo] at h
      obtain ⟨i2, b2, hmem, hp2⟩ := ih fb h p hp
      exact ⟨i2, b2, List.mem_cons_of_mem _ hmem, hp2⟩
    | undef =>
      intro fb h p hp
      simp only [sendLoopGo] at h
      have hrest : sendLoopGo sp appStart appEnd rest = .ok fb := by
        by_cases hr : inSendRange sp appStart appEnd idx
        · rw [if_pos hr] at h
          by_cases hs : (!sp.skipEmptyBlocks) = true
          · rw [if_pos hs] at h; cases h
          · rwa [if_neg hs] at h
        · rwa [if_neg hr] at h
      obtain ⟨i2, b2, hmem, hp2⟩ := ih fb hrest p hp
      exact ⟨i2, b2, List.mem_cons_of_mem _ hmem, hp2⟩
    | data b =>
      intro fb h p hp
      simp only [sendLoopGo] at h
      by_cases hr : inSendRange sp appStart appEnd idx
      · rw [if_pos hr] at h
        by_cases hc : (!sp.skipEmptyBlocks
            || !blockIsEmptyOf sp.blockIsEmpty (.data b)) = true
        · rw [if_pos hc] at h
          cases hrec : sendLoopGo sp appStart appEnd rest with
          | error m => rw [hrec] at h; cases h
          | ok tail =>
            rw [hrec] at h
            cases h
            rcases List.mem_cons.mp hp with rfl | hp'
            · exact ⟨idx, b, List.mem_cons_self _ _, rfl⟩
            · obtain ⟨i2, b2, hmem, hp2⟩ := ih tail hrec p hp'
              exact ⟨i2, b2, List.mem_cons_of_mem _ hmem, hp2⟩
        · rw [if_neg hc] at h
          obtain ⟨i2, b2, hmem, hp2⟩ := ih fb h p hp
          exact ⟨i2, b2, List.mem_cons_of_mem _ hmem, hp2⟩
      · rw [if_neg hr] at h
        obtain ⟨i2, b2, hmem, hp2⟩ := ih fb h p hp
        exact ⟨i2, b2, List.mem_cons_of_mem _ hmem, hp2⟩

theorem mem_enumFrom : ∀ (l : List Entry) (s idx : Nat) (e : Entry),
    (idx, e) ∈ enumFrom s l → s ≤ idx ∧ storeGet l (idx - s) = e := by
  intro l
  induction l with
  | nil => intro s idx e h; simp [enumFrom] at h
  | cons x xs ih =>
    intro s idx e h
    simp only [enumFrom, List.mem_cons] at h
    rcases h with h | h
    · obtain ⟨h1, h2⟩ := Prod.mk.injEq idx e s x ▸ h
      subst h1; subst h2
      exact ⟨le_refl _, by simp [storeGet]⟩
    · obtain ⟨hle, hget⟩ := ih (s + 1) idx e h
      refine ⟨by omega, ?_⟩
      have hsub : idx - s = (idx - (s + 1)) + 1 := by omega
      rw [hsub]
      simpa [storeGet] using hget

theorem filtered_pointwise (blocks : List Entry) (excl : List BlockRange)
    (i : Nat) (hi : isExcluded excl i = true) (e : Entry) :
    ∀ k : Int, getEntry (loadSimpleFilter (storeSet blocks i e) excl) k =
      getEntry (loadSimpleFilter blocks excl) k := by
  intro k
  unfold getEntry
  by_cases hk : 0 ≤ k
  · simp only [hk, if_true, storeGet_loadSimpleFilter, storeGet_storeSet]
    by_cases hx : isExcluded excl k.toNat
    · rw [if_pos hx, if_pos hx]
    · rw [if_neg hx, if_neg hx, if_neg ?_]
      intro hki
      rw [hki] at hx
      exact hx hi
  · rw [if_neg hk, if_neg hk]

/-! ## Claim C1 -/

/-- C1: during the import phase, with the exclusion load filter installed,
(1) the local CRC is `space.checksum(appStart - dataOffset,
appEnd - dataOffset, hexBlock, blocks)` applied to the post-load-filter
store, before the in-range/empty-block send pass runs (so blocks later
skipped as empty or out-of-range still feed the checksum); (2) every
payload of `flashBlocks` comes, via the send filter, from a block of the
original store whose index the load filter did not drop; (3) the contents
a dropped index held before the load filter contribute nothing to
`computedCrc`. -/
theorem importPhase_crc_before_send_filter (sp : ImportSpace)
    (hlf : sp.loadFilter = .simpleFilter) (appStart appEnd : Int)
    (blocks : List Entry) :
    (importPhase sp appStart appEnd blocks).1 =
      checksumOf sp.checksum (appStart - sp.dataOffset) (appEnd - sp.dataOffset)
        sp.hexBlock (loadSimpleFilter blocks sp.excludeBlocks)
    ∧ (∀ fb, (importPhase sp appStart appEnd blocks).2 = .ok fb →
        ∀ p ∈ fb, ∃ idx b, isExcluded sp.excludeBlocks idx = false ∧
          storeGet blocks idx = .data b ∧
          p = sendFilterOf sp.sendFilter idx b sp.addressing sp.dataOffset)
    ∧ (∀ i, isExcluded sp.excludeBlocks i = true → ∀ e : Entry,
        (importPhase sp appStart appEnd (storeSet blocks i e)).1 =
          (importPhase sp appStart appEnd blocks).1) := by
  refine ⟨?_, ?_, ?_⟩
  · simp [importPhase, hlf, applyLoadFilter]
  · intro fb hfb p hp
    have hfb' : sendLoopGo sp appStart appEnd
        (enumFrom 0 (loadSimpleFilter blocks sp.excludeBlocks)) = .ok fb := by
      simpa [importPhase, hlf, applyLoadFilter] using hfb
    obtain ⟨idx, b, hmem, hpeq⟩ := sendLoopGo_ok_mem sp appStart appEnd _ fb hfb' p hp
    obtain ⟨-, hget⟩ := mem_enumFrom _ 0 idx _ hmem
    rw [Nat.sub_zero, storeGet_loadSimpleFilter] at hget
    by_cases hex : isExcluded sp.excludeBlocks idx
    · rw [if_pos hex] at hget
      simp at hget
    · rw [if_neg hex] at hget
      exact ⟨idx, b, by simpa using hex, hget, hpeq⟩
  · intro i hi e
    simp only [importPhase, hlf, applyLoadFilter]
    exact checksumOf_congr sp.checksum
      (filtered_pointwise blocks sp.excludeBlocks i hi e) _ _ _

/-- Witness for `importPhase_crc_before_send_filter`: a PIC16-style space
(no-fill checksum, exclusion of block 1) over a concrete two-block image. -/
theorem importPhase_crc_before_send_filter_witness :
    (importPhase ⟨64, 1, 0, true, .simpleFilter, [⟨1, 1, true⟩], .nofill, .simple, .simple⟩
        0 128 [Entry.data [1, 2], Entry.data [3]]).1 =
      checksumOf .nofill ((0 : Int) - 0) ((128 : Int) - 0) 64
        (loadSimpleFilter [Entry.data [1, 2], Entry.data [3]] [⟨1, 1, true⟩]) :=
  (importPhase_crc_before_send_filter _ rfl 0 128 _).1

/-! ## Lemmas about the send filters -/

theorem nat_and_255 (x : Nat) : x &&& 255 = x % 256 := by
  have h := Nat.and_pow_two_sub_one_eq_mod x 8
  norm_num at h
  exact h

theorem addressBytes_of_lt (n : Nat) (hlt : n < 4294967296) :
    addressBytes (n : Int) =
      [n / 2 ^ 24 % 256, n / 2 ^ 16 % 256, n / 2 ^ 8 % 256, n % 256] := by
  have h1 : (((n : Int)) % 4294967296).toNat = n := by
    rw [Int.emod_eq_of_lt (by positivity) (by exact_mod_cast hlt)]
    simp
  simp only [addressBytes, h1, Nat.shiftRight_eq_div_pow, nat_and_255]

theorem hmiStrip_length : ∀ (b : List Nat), 4 ∣ b.length →
    (hmiStrip b).length = 3 * (b.length / 4)
  | [], _ => by simp [hmiStrip]
  | [x], h => by simp only [List.length_cons, List.length_nil] at h; omega
  | [x, y], h => by simp only [List.length_cons, List.length_nil] at h; omega
  | [x, y, z], h => by simp only [List.length_cons, List.length_nil] at h; omega
  | x0 :: x1 :: x2 :: x3 :: rest, h => by
    have hr : 4 ∣ rest.length := by
      simp only [List.length_cons] at h
      omega
    have ih := hmiStrip_length rest hr
    simp only [hmiStrip, List.length_cons, ih]
    omega

/-! ## Claim C7 -/

/-- C7: with the block address `n = idx * block.len / a + off` (an exact
division, as for every space in the source, and fitting 32 bits), the
Simple send filter emits the four big-endian bytes of `n` followed by the
block verbatim, and the HMI send filter emits the same four address bytes
followed by the first three bytes of each 4-byte stride, for a total
length of `4 + (3/4) * block.len`. -/
theorem sendFilter_structure (idx : Nat) (block : List Nat) (a : Nat)
    (off : Int) (n : Nat) (ha : 0 < a) (hdvd : a ∣ idx * block.length)
    (hn : (n : Int) = ((idx * block.length / a : Nat) : Int) + off)
    (hlt : n < 4294967296) :
    sendSimpleFilter idx block a off =
      [n / 2 ^ 24 % 256, n / 2 ^ 16 % 256, n / 2 ^ 8 % 256, n % 256] ++ block
    ∧ (4 ∣ block.length →
        (sendHmiAppFilter idx block a off).length = 4 + 3 * (block.length / 4)) := by
  have haddr : blockAddress idx block.length a off = (n : Int) := by
    obtain ⟨q, hq⟩ := hdvd
    have hdiv : (a * q : Nat) / a = q := Nat.mul_div_cancel_left q ha
    rw [hq, hdiv] at hn
    unfold blockAddress
    rw [hq]
    push_cast
    rw [show ((a : Int) * q + a * off) = (a : Int) * (q + off) by ring,
      Int.mul_tdiv_cancel_left _ (by exact_mod_cast ha.ne')]
    omega
  constructor
  · unfold sendSimpleFilter
    rw [haddr, addressBytes_of_lt n hlt]
  · intro h4
    unfold sendHmiAppFilter
    rw [haddr, addressBytes_of_lt n hlt]
    simp only [List.length_append, hmiStrip_length block h4]
    simp

/-- Witness for `sendFilter_structure`: index 2, an 8-byte block,
PIC-style addressing 2 and offset 3, so the address is `11`. -/
theorem sendFilter_structure_witness :
    sendSimpleFilter 2 [1, 2, 3, 4, 5, 6, 7, 8] 2 3 =
      [11 / 2 ^ 24 % 256, 11 / 2 ^ 16 % 256, 11 / 2 ^ 8 % 256, 11 % 256]
        ++ [1, 2, 3, 4, 5, 6, 7, 8]
    ∧ (4 ∣ ([1, 2, 3, 4, 5, 6, 7, 8] : List Nat).length →
        (sendHmiAppFilter 2 [1, 2, 3, 4, 5, 6, 7, 8] 2 3).length =
          4 + 3 * (([1, 2, 3, 4, 5, 6, 7, 8] : List Nat).length / 4)) :=
  sendFilter_structure 2 [1, 2, 3, 4, 5, 6, 7, 8] 2 3 11
    (by decide) (by decide) (by decide) (by decide)

/-! ## Claim C2 -/

/-- C2 counterexample: the claim requires the connect phase to fail with
`UnsupportedDevice` whenever the reported number of spaces
(`response[3]`) is below `selected_space_index + 1`, but the source
comments the `isCompatible` call out (src/index.js:248-249), so an
ENQUIRE response reporting 0 spaces connects successfully even though the
(uncalled) `isCompatible` of a 1-space target would have rejected it. -/
theorem connectToTarget_spaces_check_cex :
    (∃ info, connectToTarget [0x20, 4, 0, 0] = .ok info) ∧
    isCompatible true 0 1 [0x20, 4, 0, 0] = some "Found unsupported device" :=
  ⟨⟨_, rfl⟩, rfl⟩

/-- C2 (amended): the connect phase fails on a response shorter than 4
bytes, fails with `UnsupportedVersion` when the major version byte is not
2, 3 or 4, and otherwise succeeds; the number-of-spaces
(`UnsupportedDevice`) check is not performed, because the `isCompatible`
call is commented out. -/
theorem connectToTarget_version_check_only (response : List Nat) :
    (∃ info, connectToTarget response = .ok info) ↔
      (4 ≤ response.length ∧
        (response.getD 1 0 = 2 ∨ response.getD 1 0 = 3 ∨ response.getD 1 0 = 4)) := by
  simp only [connectToTarget]
  by_cases h4 : 4 ≤ response.length
  · rw [if_pos h4]
    by_cases hv : response.getD 1 0 ≠ 4 ∧ response.getD 1 0 ≠ 3 ∧ response.getD 1 0 ≠ 2
    · rw [if_pos hv]
      constructor
      · rintro ⟨info, h⟩
        cases h
      · rintro ⟨-, hor⟩
        exact absurd hor (by tauto)
    · rw [if_neg hv]
      exact ⟨fun _ => ⟨h4, by tauto⟩, fun _ => ⟨_, rfl⟩⟩
  · rw [if_neg h4]
    constructor
    · rintro ⟨info, h⟩
      cases h
    · rintro ⟨h, -⟩
      exact absurd h h4

/-! ## Claim C8 -/

/-- C8 (code bug): when `blScalarVersion >= 0x0401`, the response is an
ACK, and the echoed address bytes `response[3..5]` do not match the
payload bytes `block[2..4]`, the send step does fail fatally without
incrementing `blocksCompleted` — but with a `ReferenceError` from the
undefined variable `log` (src/index.js:501), not with the intended
`BlockOutOfSequence` (`Incorrect Block Acknowledgement`) error, which sits
on the next, unreachable line. -/
theorem sendAppBlock_mismatch_reference_error :
    sendAppBlockCheck 0x0401 [1, 2, 3, 4] [0, 0, 0, 9, 9] 5 =
      .error (.referenceError "log is not defined") ∧
    sendAppBlockCheck 0x0401 [1, 2, 3, 4] [0, 0, 0, 9, 9] 5 ≠
      .error SendError.blockOutOfSequence := by
  refine ⟨rfl, fun h => ?_⟩
  rw [show sendAppBlockCheck 0x0401 [1, 2, 3, 4] [0, 0, 0, 9, 9] 5 =
      Except.error (SendError.referenceError "log is not defined") from rfl] at h
  simp at h

/-! ## Claim C9 -/

theorem sendBlocksTrace_alternating (respOk : Nat → Bool) :
    ∀ L : List (Nat × List Nat), Alternating (sendBlocksTrace respOk L) = true := by
  intro L
  induction L with
  | nil => rfl
  | cons hd rest ih =>
    obtain ⟨idx, b⟩ := hd
    simp only [sendBlocksTrace]
    by_cases h : respOk idx
    · rw [if_pos h]
      simpa [Alternating] using ih
    · rw [if_neg h]
      simp [Alternating]

theorem sendBlocksTrace_issues_prefix (respOk : Nat → Bool) :
    ∀ L : List (Nat × List Nat),
      issueIndices (sendBlocksTrace respOk L) <+: L.map Prod.fst := by
  intro L
  induction L with
  | nil => exact ⟨[], rfl⟩
  | cons hd rest ih =>
    obtain ⟨idx, b⟩ := hd
    simp only [sendBlocksTrace, List.map_cons]
    by_cases h : respOk idx
    · rw [if_pos h]
      obtain ⟨t, ht⟩ := ih
      refine ⟨t, ?_⟩
      simp only [issueIndices, List.filterMap_cons]
      simpa [issueIndices] using congrArg (idx :: ·) ht
    · rw [if_neg h]
      exact ⟨rest.map Prod.fst, rfl⟩

theorem enumPayloads_map_fst :
    ∀ (l : List (List Nat)) (s : Nat),
      (enumPayloads s l).map Prod.fst = List.range' s l.length := by
  intro l
  induction l with
  | nil => intro s; rfl
  | cons x xs ih =>
    intro s
    simp [enumPayloads, ih, List.range'_succ]

/-- C9: the `sendBlocks` loop awaits each DATA transaction before issuing
the next one: in its event trace every issued command is immediately
followed by its own completion (so no two DATA commands are ever
outstanding at once), and the commands that are issued are exactly an
initial segment of the payload indices `0, 1, 2, ...` in ascending order
(the loop stops at the first failed transaction). -/
theorem sendBlocks_sequential (respOk : Nat → Bool) (flashBlocks : List (List Nat)) :
    Alternating (sendBlocksEvents respOk flashBlocks) = true ∧
    issueIndices (sendBlocksEvents respOk flashBlocks) <+:
      List.range flashBlocks.length := by
  constructor
  · exact sendBlocksTrace_alternating respOk _
  · have h := sendBlocksTrace_issues_prefix respOk (enumPayloads 0 flashBlocks)
    rwa [enumPayloads_map_fst, ← List.range_eq_range'] at h

/-! ## Claim C3 -/

theorem jsByteSum_map_some : ∀ (l : List Nat) (acc : Int),
    List.foldl jsByteSumStep acc (l.map (fun v : Nat => some (v : Int))) =
      if l = [] then acc else (acc + (l.sum : Int)) % 256 := by
  intro l
  induction l with
  | nil => intro acc; rfl
  | cons x rest ih =>
    intro acc
    simp only [List.map_cons, List.foldl_cons, jsByteSumStep]
    rw [ih]
    by_cases h : rest = []
    · subst h
      simp
    · rw [if_neg h, if_neg (by simp)]
      rw [Int.emod_add_emod]
      congr 1
      rw [List.sum_cons]
      push_cast
      ring

/-- C3 counterexample: the claim says a line not starting with `':'` is
rejected, but `parseHexLine` never checks the start code — it drops the
first character unconditionally, so the line `A00000001FF` (an EOF record
whose start code was replaced by `A`) parses successfully. -/
theorem parseHexLine_no_start_code_cex :
    parseHexLine 1 ("A00000001FF".toList) =
      .ok { count := some 0, address := some 0, rtype := some 1, rdata := [] } := by
  rfl

/-- C3 (amended): the first character of a non-empty line is dropped
without being checked against `':'`; when the remainder hex-decodes
cleanly to the byte list `bs`, the line is accepted iff `bs` has at least
5 bytes, its count byte `bs[0]` equals the data length `bs.length - 5`,
and the sum of all decoded bytes is 0 modulo 256. -/
theorem parseHexLine_accept_iff (lineNo : Nat) (c0 : Char) (tail : List Char)
    (bs : List Nat)
    (hdec : hexToBytes tail = bs.map (fun v : Nat => some (v : Int))) :
    (∃ r, parseHexLine lineNo (c0 :: tail) = .ok r) ↔
      (5 ≤ bs.length ∧ bs.headD 0 = bs.length - 5 ∧ bs.sum % 256 = 0) := by
  simp only [parseHexLine, List.drop_succ_cons, List.drop_zero]
  rw [hdec, List.length_map]
  by_cases h5 : 4 < bs.length
  · obtain ⟨x, rest, rfl⟩ : ∃ x rest, bs = x :: rest := by
      cases bs with
      | nil => simp at h5
      | cons x rest => exact ⟨x, rest, rfl⟩
    rw [if_pos h5]
    have hsm : ((x :: rest).map (fun v : Nat => some (v : Int))).foldl jsByteSumStep 0 =
        (((x :: rest).sum : Int)) % 256 := by
      have h := jsByteSum_map_some (x :: rest) 0
      rw [if_neg (by simp)] at h
      rw [h]
      omega
    rw [hsm,
      show ((x :: rest).map (fun v : Nat => some (v : Int))).getD 0 none
        = some ((x : Nat) : Int) from rfl,
      List.length_take, List.length_drop, List.length_map,
      show ((x :: rest).length - 1 - 4) ⊓ ((x :: rest).length - 4)
        = (x :: rest).length - 5 from by omega]
    by_cases hval : some ((x : Nat) : Int) ≠ some (((x :: rest).length - 5 : Nat) : Int)
        ∨ (((x :: rest).sum : Int)) % 256 ≠ 0
    · rw [if_pos hval]
      constructor
      · rintro ⟨r, hr⟩
        cases hr
      · rintro ⟨-, hhead, hsum⟩
        rw [List.headD_cons] at hhead
        refine absurd hval ?_
        push_neg
        refine ⟨congrArg some (by exact_mod_cast hhead), by omega⟩
    · rw [if_neg hval]
      push_neg at hval
      obtain ⟨hcnt, hsum⟩ := hval
      have hx : x = (x :: rest).length - 5 := by exact_mod_cast Option.some.inj hcnt
      exact ⟨fun _ => ⟨by omega, by rw [List.headD_cons]; exact hx, by omega⟩,
        fun _ => ⟨_, rfl⟩⟩
  · rw [if_neg h5]
    constructor
    · rintro ⟨r, hr⟩
      cases hr
    · rintro ⟨h, -⟩
      omega

/-- Witness for `parseHexLine_accept_iff`: the standard EOF record
`:00000001FF`, which decodes to `[0, 0, 0, 1, 255]` and is accepted. -/
theorem parseHexLine_accept_iff_witness :
    ∃ r, parseHexLine 1 (':' :: "00000001FF".toList) = .ok r :=
  (parseHexLine_accept_iff 1 ':' ("00000001FF".toList) [0, 0, 0, 1, 255]
    (by rfl)).mpr (by decide)

/-! ## Lemmas about the block store writes -/

theorem getD_take_of_lt (l : List Nat) (n k d : Nat) (h : k < n) :
    (l.take n).getD k d = l.getD k d := by
  rw [List.getD_eq_getElem?_getD, List.getElem?_take, if_pos h,
    ← List.getD_eq_getElem?_getD]

theorem getD_drop (l : List Nat) (i k d : Nat) :
    (l.drop i).getD k d = l.getD (i + k) d := by
  rw [List.getD_eq_getElem?_getD, List.getElem?_drop,
    ← List.getD_eq_getElem?_getD]

theorem spliceReplace_getElem? (cur : List Nat) (off : Nat) (bytes : List Nat)
    (hoff : off ≤ cur.length) (p : Nat) :
    (spliceReplace cur off bytes)[p]? =
      if p < off then cur[p]?
      else if p < off + bytes.length then bytes[p - off]?
      else cur[p]? := by
  have hlen : (cur.take off).length = off := by
    rw [List.length_take]; omega
  unfold spliceReplace
  by_cases h1 : p < off
  · rw [if_pos h1, List.getElem?_append_left (by rw [hlen]; exact h1),
      List.getElem?_take, if_pos h1]
  · rw [if_neg h1, List.getElem?_append_right (by rw [hlen]; omega), hlen]
    by_cases h2 : p < off + bytes.length
    · rw [if_pos h2, List.getElem?_append_left (by omega)]
    · rw [if_neg h2, List.getElem?_append_right (by omega), List.getElem?_drop]
      congr 1
      omega

theorem spliceReplace_length (cur : List Nat) (off : Nat) (bytes : List Nat)
    (h : off + bytes.length ≤ cur.length) :
    (spliceReplace cur off bytes).length = cur.length := by
  unfold spliceReplace
  simp only [List.length_append, List.length_take, List.length_drop]
  omega

theorem storeGet_blockUpdate (bs : Nat) (blocks : List Entry) (bi off : Nat)
    (bytes : List Nat) (j : Nat) :
    storeGet (blockUpdate bs blocks bi off bytes) j =
      if j = bi then .data (spliceReplace (curBlock bs blocks bi) off bytes)
      else storeGet blocks j := by
  unfold blockUpdate
  exact storeGet_storeSet _ _ _ _

theorem curBlock_length {bs : Nat} {blocks : List Entry} (hwf : StoreWF bs blocks)
    (bi : Nat) : (curBlock bs blocks bi).length = bs := by
  unfold curBlock
  cases h : storeGet blocks bi with
  | data b => exact hwf bi b h
  | hole => simp
  | undef => simp

theorem curBlock_getD (bs : Nat) (blocks : List Entry) (bi p : Nat) :
    (curBlock bs blocks bi).getD p 0xFF =
      match storeGet blocks bi with
      | .data b => b.getD p 0xFF
      | _ => 0xFF := by
  unfold curBlock
  cases storeGet blocks bi with
  | data b => rfl
  | hole =>
    rw [List.getD_eq_getElem?_getD, List.getElem?_replicate]
    by_cases h : p < bs <;> simp [h]
  | undef =>
    rw [List.getD_eq_getElem?_getD, List.getElem?_replicate]
    by_cases h : p < bs <;> simp [h]

theorem blockUpdate_WF {bs : Nat} {blocks : List Entry} {bi off : Nat}
    {bytes : List Nat} (hwf : StoreWF bs blocks)
    (hfit : off + bytes.length ≤ bs) :
    StoreWF bs (blockUpdate bs blocks bi off bytes) := by
  intro j b hj
  rw [storeGet_blockUpdate] at hj
  by_cases hji : j = bi
  · rw [if_pos hji] at hj
    have hb : spliceReplace (curBlock bs blocks bi) off bytes = b := Entry.data.inj hj
    rw [← hb, spliceReplace_length _ _ _ (by rw [curBlock_length hwf]; exact hfit)]
    exact curBlock_length hwf bi
  · rw [if_neg hji] at hj
    exact hwf j b hj

theorem readByte_data {bs : Nat} {blocks : List Entry} {a : Nat} {b : List Nat}
    (h : storeGet blocks (a / bs) = .data b) :
    readByte bs blocks a = b.getD (a % bs) 0xFF := by
  unfold readByte
  rw [h]

theorem readByte_congr {bs : Nat} {blocks blocks' : List Entry} {a : Nat}
    (h : storeGet blocks (a / bs) = storeGet blocks' (a / bs)) :
    readByte bs blocks a = readByte bs blocks' a := by
  unfold readByte
  rw [h]

theorem readByte_curBlock {bs : Nat} {blocks : List Entry} {a bi : Nat}
    (hq : a / bs = bi) :
    (curBlock bs blocks bi).getD (a % bs) 0xFF = readByte bs blocks a := by
  rw [curBlock_getD]
  unfold readByte
  rw [hq]

theorem readByte_blockUpdate (bs : Nat) (blocks : List Entry) (bi off : Nat)
    (bytes : List Nat) (hbs : 0 < bs) (hwf : StoreWF bs blocks)
    (hfit : off + bytes.length ≤ bs) (a : Nat) :
    readByte bs (blockUpdate bs blocks bi off bytes) a =
      if bi * bs + off ≤ a ∧ a < bi * bs + off + bytes.length then
        bytes.getD (a - (bi * bs + off)) 0
      else readByte bs blocks a := by
  have hmod : a % bs < bs := Nat.mod_lt _ hbs
  by_cases hq : a / bs = bi
  · have h0 := Nat.div_add_mod a bs
    rw [hq] at h0
    have ha : a = bi * bs + a % bs := by rw [Nat.mul_comm bi bs]; omega
    have hnew : storeGet (blockUpdate bs blocks bi off bytes) (a / bs) =
        .data (spliceReplace (curBlock bs blocks bi) off bytes) := by
      rw [storeGet_blockUpdate, if_pos hq]
    rw [readByte_data hnew, List.getD_eq_getElem?_getD,
      spliceReplace_getElem? _ _ _ (by rw [curBlock_length hwf]; omega) (a % bs)]
    by_cases h1 : a % bs < off
    · rw [if_pos h1, if_neg (by omega), ← List.getD_eq_getElem?_getD]
      exact readByte_curBlock hq
    · rw [if_neg h1]
      by_cases h2 : a % bs < off + bytes.length
      · rw [if_pos h2, if_pos (by omega)]
        have hidx : a - (bi * bs + off) = a % bs - off := by omega
        rw [hidx, List.getElem?_eq_getElem (by omega)]
        rw [List.getD_eq_getElem?_getD, List.getElem?_eq_getElem (by omega)]
        rfl
      · rw [if_neg h2, if_neg (by omega), ← List.getD_eq_getElem?_getD]
        exact readByte_curBlock hq
  · have hold : storeGet (blockUpdate bs blocks bi off bytes) (a / bs) =
        storeGet blocks (a / bs) := by
      rw [storeGet_blockUpdate, if_neg hq]
    rw [readByte_congr hold, if_neg ?_]
    rintro ⟨hlo, hhi⟩
    apply hq
    refine Nat.div_eq_of_lt_le (by omega) ?_
    have hexp : (bi + 1) * bs = bi * bs + bs := by ring
    omega

/-! ## Claim C5 -/

/-- C5: `addData` writes every data byte at
`effective_address = extendedAddress + record.address`, i.e. byte `k` of
the record lands at address `effective_address + k` (in block
`(effective_address + k) / blockSize` at offset
`(effective_address + k) % blockSize`, which is what `readByte` reads);
all other addresses are unchanged, only the two consecutive blocks
`block_index` and `block_index + 1` are touched (so a straddling record
deposits the same bytes at the same addresses as a non-straddling write
would), and the first block written is present with a full-size buffer
whose unwritten cells read as `0xFF`. -/
theorem addData_spec (bs ext : Nat) (blocks : List Entry) (addr : Nat)
    (bytes : List Nat) (hbs : 0 < bs) (hwf : StoreWF bs blocks)
    (hlen : bytes.length ≤ bs) :
    (∀ k, k < bytes.length →
      readByte bs (addData bs ext blocks addr bytes) (ext + addr + k) =
        bytes.getD k 0)
    ∧ (∀ a, a < ext + addr ∨ ext + addr + bytes.length ≤ a →
        readByte bs (addData bs ext blocks addr bytes) a = readByte bs blocks a)
    ∧ (∀ j, j ≠ (ext + addr) / bs → j ≠ (ext + addr) / bs + 1 →
        storeGet (addData bs ext blocks addr bytes) j = storeGet blocks j)
    ∧ (∃ b, storeGet (addData bs ext blocks addr bytes) ((ext + addr) / bs) =
        .data b ∧ b.length = bs) := by
  have hmod : (ext + addr) % bs < bs := Nat.mod_lt _ hbs
  have hqb : (ext + addr) / bs * bs + (ext + addr) % bs = ext + addr := by
    rw [Nat.mul_comm]
    exact Nat.div_add_mod _ _
  have hq1 : ((ext + addr) / bs + 1) * bs = (ext + addr) / bs * bs + bs := by ring
  by_cases hsplit : bs - (ext + addr) % bs < bytes.length
  · have haddeq : addData bs ext blocks addr bytes =
        blockUpdate bs
          (blockUpdate bs blocks ((ext + addr) / bs) ((ext + addr) % bs)
            (bytes.take (bs - (ext + addr) % bs)))
          ((ext + addr) / bs + 1) 0 (bytes.drop (bs - (ext + addr) % bs)) := by
      simp only [addData]
      rw [if_pos hsplit]
    have hwf1 : StoreWF bs (blockUpdate bs blocks ((ext + addr) / bs)
        ((ext + addr) % bs) (bytes.take (bs - (ext + addr) % bs))) :=
      blockUpdate_WF hwf (by rw [List.length_take]; omega)
    refine ⟨?_, ?_, ?_, ?_⟩
    · intro k hk
      rw [haddeq,
        readByte_blockUpdate bs _ _ _ _ hbs hwf1 (by rw [List.length_drop]; omega)]
      by_cases hcase : bs - (ext + addr) % bs ≤ k
      · rw [if_pos (by rw [List.length_drop]; omega), getD_drop]
        congr 1
        omega
      · rw [if_neg (by rw [List.length_drop]; omega),
          readByte_blockUpdate bs blocks _ _ _ hbs hwf (by rw [List.length_take]; omega),
          if_pos (by rw [List.length_take]; omega),
          show ext + addr + k - ((ext + addr) / bs * bs + (ext + addr) % bs) = k
            from by omega,
          getD_take_of_lt _ _ _ _ (by omega)]
    · intro a ha
      rw [haddeq,
        readByte_blockUpdate bs _ _ _ _ hbs hwf1 (by rw [List.length_drop]; omega),
        if_neg (by rw [List.length_drop]; omega),
        readByte_blockUpdate bs blocks _ _ _ hbs hwf (by rw [List.length_take]; omega),
        if_neg (by rw [List.length_take]; omega)]
    · intro j hj1 hj2
      rw [haddeq, storeGet_blockUpdate, if_neg hj2, storeGet_blockUpdate,
        if_neg hj1]
    · refine ⟨spliceReplace (curBlock bs blocks ((ext + addr) / bs))
        ((ext + addr) % bs) (bytes.take (bs - (ext + addr) % bs)), ?_, ?_⟩
      · rw [haddeq, storeGet_blockUpdate, if_neg (by omega), storeGet_blockUpdate,
          if_pos rfl]
      · rw [spliceReplace_length _ _ _
          (by rw [curBlock_length hwf, List.length_take]; omega),
          curBlock_length hwf]
  · have haddeq : addData bs ext blocks addr bytes =
        blockUpdate bs blocks ((ext + addr) / bs) ((ext + addr) % bs) bytes := by
      simp only [addData]
      rw [if_neg hsplit]
    refine ⟨?_, ?_, ?_, ?_⟩
    · intro k hk
      rw [haddeq, readByte_blockUpdate bs blocks _ _ _ hbs hwf (by omega),
        if_pos (by omega),
        show ext + addr + k - ((ext + addr) / bs * bs + (ext + addr) % bs) = k
          from by omega]
    · intro a ha
      rw [haddeq, readByte_blockUpdate bs blocks _ _ _ hbs hwf (by omega),
        if_neg (by omega)]
    · intro j hj1 hj2
      rw [haddeq, storeGet_blockUpdate, if_neg hj1]
    · refine ⟨spliceReplace (curBlock bs blocks ((ext + addr) / bs))
        ((ext + addr) % bs) bytes, ?_, ?_⟩
      · rw [haddeq, storeGet_blockUpdate, if_pos rfl]
      · rw [spliceReplace_length _ _ _ (by rw [curBlock_length hwf]; omega),
          curBlock_length hwf]

/-- Witness for `addData_spec`: writing `[9, 8, 7]` at effective address 6
with 4-byte blocks straddles blocks 1 and 2; byte 2 of the record is read
back at address 8. -/
theorem addData_spec_witness :
    readByte 4 (addData 4 0 [] 6 [9, 8, 7]) (0 + 6 + 2) =
      ([9, 8, 7] : List Nat).getD 2 0 :=
  (addData_spec 4 0 [] 6 [9, 8, 7] (by decide)
    (fun i b h => by simp [storeGet] at h) (by decide)).1 2 (by decide)

/-! ## Claim C10 -/

theorem addData_WF {bs : Nat} (ext : Nat) {blocks : List Entry} (addr : Nat)
    (bytes : List Nat) (hbs : 0 < bs) (hwf : StoreWF bs blocks)
    (hlen : bytes.length ≤ bs) :
    StoreWF bs (addData bs ext blocks addr bytes) := by
  have hmod : (ext + addr) % bs < bs := Nat.mod_lt _ hbs
  by_cases hsplit : bs - (ext + addr) % bs < bytes.length
  · have haddeq : addData bs ext blocks addr bytes =
        blockUpdate bs
          (blockUpdate bs blocks ((ext + addr) / bs) ((ext + addr) % bs)
            (bytes.take (bs - (ext + addr) % bs)))
          ((ext + addr) / bs + 1) 0 (bytes.drop (bs - (ext + addr) % bs)) := by
      simp only [addData]
      rw [if_pos hsplit]
    rw [haddeq]
    exact blockUpdate_WF (blockUpdate_WF hwf (by rw [List.length_take]; omega))
      (by rw [List.length_drop]; omega)
  · have haddeq : addData bs ext blocks addr bytes =
        blockUpdate bs blocks ((ext + addr) / bs) ((ext + addr) % bs) bytes := by
      simp only [addData]
      rw [if_neg hsplit]
    rw [haddeq]
    exact blockUpdate_WF hwf (by omega)

theorem processRecord_step_WF {bs : Nat} (hbs : 0 < bs) (st : HexState)
    (r : PRecord) (hwf : StoreWF bs st.blocks)
    (hr : r.rtype = 0 → r.rdata.length ≤ bs) :
    StoreWF bs (match processRecord bs st r with
      | .ok st' => st'
      | .error _ => st).blocks := by
  by_cases h0 : r.rtype = 0
  · have heq : processRecord bs st r = .ok { st with
        blocks := addData bs st.extendedAddress st.blocks r.address r.rdata } := by
      unfold processRecord
      rw [if_pos h0]
    rw [heq]
    exact addData_WF _ _ _ hbs hwf (hr h0)
  · have heq : (match processRecord bs st r with
        | .ok st' => st'
        | .error _ => st).blocks = st.blocks := by
      unfold processRecord
      rw [if_neg h0]
      by_cases h1 : r.rtype = 1
      · rw [if_pos h1]
      · rw [if_neg h1]
        by_cases h2 : r.rtype = 2
        · rw [if_pos h2]
        · rw [if_neg h2]
          by_cases h3 : r.rtype = 3
          · rw [if_pos h3]
          · rw [if_neg h3]
            by_cases h4 : r.rtype = 4
            · rw [if_pos h4]
            · rw [if_neg h4]
              by_cases h5 : r.rtype = 5
              · rw [if_pos h5]
              · rw [if_neg h5]
    intro i b hib
    rw [heq] at hib
    exact hwf i b hib

theorem runRecords_foldl_WF {bs : Nat} (hbs : 0 < bs) :
    ∀ (records : List PRecord) (st : HexState), StoreWF bs st.blocks →
      (∀ r ∈ records, r.rtype = 0 → r.rdata.length ≤ bs) →
      StoreWF bs (records.foldl
        (fun st r => match processRecord bs st r with
          | .ok st' => st'
          | .error _ => st) st).blocks := by
  intro records
  induction records with
  | nil => intro st hwf _; exact hwf
  | cons r rest ih =>
    intro st hwf hdl
    rw [List.foldl_cons]
    exact ih _ (processRecord_step_WF hbs st r hwf (hdl r (List.mem_cons_self _ _)))
      (fun r' hr' => hdl r' (List.mem_cons_of_mem _ hr'))

/-- C10: when every processed DATA record carries at most `blockSize`
bytes, every block present in the store after the whole record list has
been processed (with the extended-address latch threaded through, and
failed records leaving the state unchanged) has length exactly
`blockSize`. -/
theorem runRecords_blocks_length (bs : Nat) (records : List PRecord)
    (hbs : 0 < bs)
    (hdl : ∀ r ∈ records, r.rtype = 0 → r.rdata.length ≤ bs) :
    ∀ i b, storeGet (runRecords bs records).blocks i = .data b →
      b.length = bs := by
  have hinit : StoreWF bs ([] : List Entry) := by
    intro i b h
    simp [storeGet] at h
  exact runRecords_foldl_WF hbs records { extendedAddress := 0, blocks := [] }
    hinit hdl

/-- Witness for `runRecords_blocks_length`: one 2-byte DATA record at
address 0 with 4-byte blocks leaves block 0 as `[1, 2, 0xFF, 0xFF]`. -/
theorem runRecords_blocks_length_witness :
    ([1, 2, 0xFF, 0xFF] : List Nat).length = 4 :=
  runRecords_blocks_length 4 [⟨0, 0, [1, 2]⟩] (by decide) (by decide) 0
    [1, 2, 0xFF, 0xFF] (by decide)

end MbLoader
